import Mathlib

/-!
Shallow embedding of the dispatchd broker core (exchange/binding routing and
the connection frame pump) with theorems checking its specification.

Sources embedded: `src/server/exchange.go` and `src/server/connection.go`.
The `Binding` type and the `amqp` helper package are not part of the provided
sources (only their callers are); those definitions are modelled from the
spec, as marked in their doc comments.
-/

namespace Dispatchd

/-- Modelled from the spec: the `amqp.Table` argument table (an external
collaborator), represented as an association list of string fields. -/
abbrev Table := List (String × String)

/-- Modelled from the spec: `amqp.EquivalentTables` — two argument tables are
equivalent iff they match. -/
def EquivalentTables (t1 t2 : Table) : Bool := t1 == t2

/-- Modelled from the spec: a Binding is (queue name, exchange name, routing
key pattern, argument table), immutable once constructed. -/
structure Binding where
  queueName : String
  exchangeName : String
  key : String
  arguments : Table
deriving DecidableEq, Repr

/-- Modelled from the spec: `NewBinding` constructs a Binding from the
queue/exchange/routing-key/arguments of a bind method. -/
def NewBinding (queue exchangeName key : String) (arguments : Table) : Binding :=
  ⟨queue, exchangeName, key, arguments⟩

/-- Modelled from the spec: `Binding.Equals` — equality is structural
(queue + exchange + routing key + arguments). -/
def Binding.Equals (b1 b2 : Binding) : Bool :=
  b1.queueName == b2.queueName && b1.exchangeName == b2.exchangeName &&
    b1.key == b2.key && b1.arguments == b2.arguments

/-- The publish method of a message, as used by routing: only its routing key
is consulted (`msg.Method.RoutingKey`). -/
structure BasicPublish where
  routingKey : String
deriving DecidableEq, Repr

/-- A published message, as consumed by `queuesForPublish`. -/
structure Message where
  method : BasicPublish
deriving DecidableEq, Repr

/-- Modelled from the spec: direct matching is true iff the publish's routing
key equals the binding's routing key exactly (byte-for-byte). -/
def Binding.matchDirect (b : Binding) (m : BasicPublish) : Bool :=
  b.key == m.routingKey

/-- Modelled from the spec: fanout matching is always true (key ignored). -/
def Binding.matchFanout (_b : Binding) (_m : BasicPublish) : Bool :=
  true

/-- Modelled from the spec: split a routing key or pattern into its
dot-delimited words (the accumulator holds the current word reversed). -/
def splitWordsAux : List Char → List Char → List String
  | [], cur => [String.mk cur.reverse]
  | c :: cs, cur =>
    if c = '.' then String.mk cur.reverse :: splitWordsAux cs []
    else splitWordsAux cs (c :: cur)

/-- Modelled from the spec: dot-delimited word split of a whole string. -/
def splitKey (s : String) : List String := splitWordsAux s.data []

/-- Helper for topic matching: `hashTails f ks` is true iff `f` holds of some
suffix of `ks` (including `ks` itself and the empty suffix). -/
def hashTails (f : List String → Bool) : List String → Bool
  | [] => f []
  | k :: ks => f (k :: ks) || hashTails f ks

/-- Modelled from the spec: topic matching over word lists, left to right with
backtracking; a pattern word `*` matches exactly one word, `#` matches zero or
more words. -/
def topicMatchWords : List String → List String → Bool
  | [], ks => ks.isEmpty
  | p :: ps, ks =>
    if p = "#" then hashTails (fun t => topicMatchWords ps t) ks
    else
      match ks with
      | [] => false
      | k :: ks' => (p = "*" || p = k) && topicMatchWords ps ks'

/-- Modelled from the spec: topic matching splits the binding's routing key
pattern and the publish's routing key into dot-delimited words and matches
them. -/
def Binding.matchTopic (b : Binding) (m : BasicPublish) : Bool :=
  topicMatchWords (splitKey b.key) (splitKey m.routingKey)

/-- Exchange types, `extype` in the source (a `uint8`). -/
abbrev extype := Nat

def EX_TYPE_DIRECT : extype := 1
def EX_TYPE_FANOUT : extype := 2
def EX_TYPE_TOPIC : extype := 3
def EX_TYPE_HEADERS : extype := 4

/-- The Exchange record of `exchange.go`, with the fields the routing and
binding-lifecycle operations touch. Concurrency plumbing (mutex, incoming
frame channel, message store) is modelled away; the `deleteChan` signal and
the spawning of the auto-delete timer are surfaced as explicit outputs of the
operations. `deleteActive` is a timestamp, with `0` standing for the epoch
`time.Unix(0, 0)`. -/
structure Exchange where
  name : String
  extype : extype
  durable : Bool
  autodelete : Bool
  internal : Bool
  arguments : Table
  system : Bool
  bindings : List Binding
  closed : Bool
  deleteActive : Int
deriving DecidableEq, Repr

/-- Embedding of `equivalentExchanges` from `exchange.go`: compares name,
type, durable, internal and arguments; auto-delete is deliberately not
checked. -/
def equivalentExchanges (ex1 ex2 : Exchange) : Bool :=
  if ex1.name != ex2.name then false
  else if ex1.extype != ex2.extype then false
  else if ex1.durable != ex2.durable then false
  else if ex1.internal != ex2.internal then false
  else if !EquivalentTables ex1.arguments ex2.arguments then false
  else true

/-- Accumulation loop of `queuesForPublish`: walk the bindings, and for each
match add its queue name unless already seen (the Go code keys a
`map[string]bool` by queue name and skips names already present). -/
def collectQueues (p : Binding → Bool) : List Binding → List String → List String
  | [], queues => queues
  | b :: bs, queues =>
    if p b then
      if b.queueName ∈ queues then collectQueues p bs queues
      else collectQueues p bs (queues ++ [b.queueName])
    else collectQueues p bs queues

/-- Embedding of `queuesForPublish` from `exchange.go`: the set of queue names
whose bindings match, under the type-specific predicate. The headers case and
the unknown-type default panic in the source; they are modelled as `none`. -/
def queuesForPublish (ex : Exchange) (msg : Message) : Option (List String) :=
  if ex.extype = EX_TYPE_DIRECT then
    some (collectQueues (fun b => b.matchDirect msg.method) ex.bindings [])
  else if ex.extype = EX_TYPE_FANOUT then
    some (collectQueues (fun b => b.matchFanout msg.method) ex.bindings [])
  else if ex.extype = EX_TYPE_TOPIC then
    some (collectQueues (fun b => b.matchTopic msg.method) ex.bindings [])
  else
    none

/-- The `amqp.QueueBind` method fields consumed by `addBinding`. -/
structure QueueBind where
  queue : String
  exchange : String
  routingKey : String
  arguments : Table
deriving DecidableEq, Repr

/-- Embedding of `addBinding` from `exchange.go`: construct the binding; if a
structurally equal one is already stored, return success unchanged; otherwise,
on an auto-delete exchange reset `deleteActive` to the epoch, then append.
The error result is always `none` (success). The `connId` and `fromDisk`
parameters are unused by the source body. -/
def addBinding (ex : Exchange) (method : QueueBind) (_connId : Int)
    (_fromDisk : Bool) : Exchange × Option String :=
  let binding := NewBinding method.queue method.exchange method.routingKey method.arguments
  if ex.bindings.any (fun b => binding.Equals b) then
    (ex, none)
  else
    let ex1 := if ex.autodelete then { ex with deleteActive := 0 } else ex
    ({ ex1 with bindings := ex1.bindings ++ [binding] }, none)

/-- Embedding of `bindingsForQueue` from `exchange.go`: read-only filter of
the bindings targeting the given queue. -/
def bindingsForQueue (ex : Exchange) (queueName : String) : List Binding :=
  ex.bindings.filter (fun b => b.queueName == queueName)

/-- Embedding of `removeBindingsForQueue` from `exchange.go`: keep only the
bindings not targeting the given queue. The boolean output records whether an
auto-delete timer was spawned; the source body contains no `go
autodeleteTimeout()`, so it is always `false`. -/
def removeBindingsForQueue (ex : Exchange) (queueName : String) : Exchange × Bool :=
  let remaining := ex.bindings.filter (fun b => b.queueName != queueName)
  ({ ex with bindings := remaining }, false)

/-- Removal loop of `removeBinding`: delete the first stored binding that the
given one `Equals`; `none` when no stored binding matches. -/
def removeFirstEq (binding : Binding) : List Binding → Option (List Binding)
  | [] => none
  | b :: bs =>
    if binding.Equals b then some bs
    else
      match removeFirstEq binding bs with
      | none => none
      | some rest => some (b :: rest)

/-- The external `queue.Queue` parameter of `removeBinding`; the source body
never reads it. -/
structure Queue where
  name : String
deriving DecidableEq, Repr

/-- Embedding of `removeBinding` from `exchange.go`: remove the first
structurally equal binding; when that empties the bindings of an auto-delete
exchange, spawn the auto-delete timer (the middle boolean output). The error
result is always `none` (success), also when no binding matched. -/
def removeBinding (ex : Exchange) (_queue : Queue) (binding : Binding) :
    Exchange × Bool × Option String :=
  match removeFirstEq binding ex.bindings with
  | none => (ex, false, none)
  | some rest =>
    ({ ex with bindings := rest }, ex.autodelete && rest.isEmpty, none)

/-- First phase of `autodeleteTimeout` from `exchange.go`: record `now` as the
active-deletion marker, then sleep for the 5-second quiescence window. -/
def autodeleteTimeoutStart (ex : Exchange) (now : Int) : Exchange :=
  { ex with deleteActive := now }

/-- Second phase of `autodeleteTimeout`, after the sleep: the deletion signal
is sent on `deleteChan` iff the marker is unchanged since the start phase. -/
def autodeleteTimeoutFire (ex : Exchange) (startTime : Int) : Bool :=
  ex.deleteActive == startTime

/-! Connection embedding, from `connection.go`. -/

/-- The `ConnectStatus` record of `connection.go`: handshake progress tracked
as independent booleans. -/
structure ConnectStatus where
  start : Bool
  startOk : Bool
  secure : Bool
  secureOk : Bool
  tune : Bool
  tuneOk : Bool
  «open» : Bool
  openOk : Bool
  closing : Bool
  closed : Bool
deriving DecidableEq, Repr

/-- A fresh `ConnectStatus{}` as built by `NewAMQPConnection`: every flag
false. -/
def ConnectStatus.initial : ConnectStatus :=
  ⟨false, false, false, false, false, false, false, false, false, false⟩

/-- A wire frame as consumed by `handleFrame`: frame type (a `uint8`; 8 is
heartbeat), channel id (a `uint16`), opaque payload bytes. -/
structure WireFrame where
  frameType : Nat
  channel : Nat
  payload : List Nat
deriving DecidableEq, Repr

/-- The `AMQPConnection` fields that `openConnection` and `handleFrame`
consult: the channel table (modelled as the list of channel ids present, in
creation order), the handshake status, the TTL deadline and the receive
heartbeat interval (times as integers). -/
structure AMQPConnection where
  channels : List Nat
  connectStatus : ConnectStatus
  ttl : Int
  receiveHeartbeatInterval : Int
deriving DecidableEq, Repr

/-- Observable outcome of `handleFrame` on one inbound frame. -/
inductive FrameAction where
  /-- The frame had type 8: `handleFrame` returned early, ignoring it. -/
  | heartbeatIgnored : FrameAction
  /-- `hardClose` was called: the network stream is closed. -/
  | hardClosed : FrameAction
  /-- The frame was sent to the channel's incoming queue; the flag records
  whether the channel was lazily created by this call. -/
  | dispatched (createdChannel : Bool) (channelId : Nat) : FrameAction
deriving DecidableEq, Repr

/-- Embedding of `handleFrame` from `connection.go`: refresh the TTL, consume
heartbeat frames, hard-close on a nonzero-channel frame while the connection
is not yet open, otherwise look up (lazily creating) the frame's channel and
dispatch to it. -/
def handleFrame (conn : AMQPConnection) (frame : WireFrame) (now : Int) :
    AMQPConnection × FrameAction :=
  let conn := { conn with ttl := now + 2 * conn.receiveHeartbeatInterval }
  if frame.frameType = 8 then
    (conn, .heartbeatIgnored)
  else if !conn.connectStatus.«open» && frame.channel ≠ 0 then
    (conn, .hardClosed)
  else if frame.channel ∈ conn.channels then
    (conn, .dispatched false frame.channel)
  else
    ({ conn with channels := conn.channels ++ [frame.channel] },
      .dispatched true frame.channel)

/-- The fixed 8-byte protocol signature of `openConnection`:
`'A','M','Q','P',0,0,9,1`. -/
def supportedSignature : List Nat := [65, 77, 81, 80, 0, 0, 9, 1]

/-- Observable outcome of `openConnection` on the protocol header. -/
structure OpenOutcome where
  /-- The supported signature was written back to the peer. -/
  wroteSignature : Bool
  /-- `hardClose` was called: the network stream is closed. -/
  hardClosed : Bool
  /-- Channel 0 was created and started. -/
  createdChannel0 : Bool
  /-- The connection went on to the outgoing/incoming frame pumps. -/
  startedHandshake : Bool
deriving DecidableEq, Repr

/-- Embedding of `openConnection` from `connection.go`: read 8 bytes from the
network (`none` models a read error); on a read error hard-close; if the bytes
differ from the supported signature, write the supported signature back and
hard-close; otherwise create channel 0 and start frame handling. -/
def openConnection (conn : AMQPConnection) (readBytes : Option (List Nat)) :
    AMQPConnection × OpenOutcome :=
  match readBytes with
  | none => (conn, ⟨false, true, false, false⟩)
  | some buf =>
    if buf ≠ supportedSignature then
      (conn, ⟨true, true, false, false⟩)
    else
      ({ conn with channels := conn.channels ++ [0] }, ⟨false, false, true, true⟩)

/-! Declarative topic-matching semantics, used to state what the operational
matcher computes. -/

/-- Declarative AMQP topic matching over word lists: a pattern word other than
`#` matches exactly one key word (`*` matches any word, a literal matches the
equal word), and `#` matches zero or more key words. -/
inductive TopicMatches : List String → List String → Prop where
  /-- The empty pattern matches the empty key. -/
  | nil : TopicMatches [] []
  /-- A non-`#` pattern word consumes exactly one key word: `*` matches any
  word, a literal matches the equal word. -/
  | word {p : String} {ps : List String} {k : String} {ks : List String} :
      p ≠ "#" → (p = "*" ∨ p = k) → TopicMatches ps ks →
      TopicMatches (p :: ps) (k :: ks)
  /-- A `#` pattern word may match zero key words. -/
  | hashSkip {ps ks : List String} :
      TopicMatches ps ks → TopicMatches ("#" :: ps) ks
  /-- A `#` pattern word may consume one more key word. -/
  | hashTake {ps : List String} {k : String} {ks : List String} :
      TopicMatches ("#" :: ps) ks → TopicMatches ("#" :: ps) (k :: ks)

/-! Helper lemmas. -/

set_option maxRecDepth 4000 in
theorem Binding.Equals_iff (b1 b2 : Binding) : b1.Equals b2 = true ↔ b1 = b2 := by
  cases b1
  cases b2
  simp only [Binding.Equals, Bool.and_eq_true, beq_iff_eq, Binding.mk.injEq, and_assoc]

theorem any_Equals_iff_mem (b : Binding) (bs : List Binding) :
    bs.any (fun x => b.Equals x) = true ↔ b ∈ bs := by
  rw [List.any_eq_true]
  constructor
  · rintro ⟨x, hx, hbx⟩
    exact ((Binding.Equals_iff b x).mp hbx) ▸ hx
  · intro hb
    exact ⟨b, hb, (Binding.Equals_iff b b).mpr rfl⟩

theorem mem_collectQueues (p : Binding → Bool) (q : String) :
    ∀ (bs : List Binding) (acc : List String),
      q ∈ collectQueues p bs acc ↔
        q ∈ acc ∨ ∃ b ∈ bs, p b = true ∧ b.queueName = q := by
  intro bs
  induction bs with
  | nil => intro acc; simp [collectQueues]
  | cons b bs ih =>
    intro acc
    by_cases hp : p b
    · by_cases hmem : b.queueName ∈ acc
      · rw [collectQueues, if_pos hp, if_pos hmem, ih]
        constructor
        · rintro (h | h)
          · exact Or.inl h
          · exact Or.inr ⟨h.choose, List.mem_cons_of_mem b h.choose_spec.1,
              h.choose_spec.2⟩
        · rintro (h | ⟨b', hb', hpb', hq⟩)
          · exact Or.inl h
          · rcases List.mem_cons.mp hb' with rfl | hb'
            · exact Or.inl (hq ▸ hmem)
            · exact Or.inr ⟨b', hb', hpb', hq⟩
      · rw [collectQueues, if_pos hp, if_neg hmem, ih]
        simp only [List.mem_append, List.mem_cons, List.not_mem_nil, or_false]
        constructor
        · rintro ((h | rfl) | ⟨b', hb', hpb', hq⟩)
          · exact Or.inl h
          · exact Or.inr ⟨b, Or.inl rfl, hp, rfl⟩
          · exact Or.inr ⟨b', Or.inr hb', hpb', hq⟩
        · rintro (h | ⟨b', hb' | hb', hpb', hq⟩)
          · exact Or.inl (Or.inl h)
          · exact Or.inl (Or.inr (hb' ▸ hq.symm))
          · exact Or.inr ⟨b', hb', hpb', hq⟩
    · rw [collectQueues, if_neg hp, ih]
      constructor
      · rintro (h | ⟨b', hb', hpb', hq⟩)
        · exact Or.inl h
        · exact Or.inr ⟨b', List.mem_cons_of_mem b hb', hpb', hq⟩
      · rintro (h | ⟨b', hb', hpb', hq⟩)
        · exact Or.inl h
        · rcases List.mem_cons.mp hb' with rfl | hb'
          · exact absurd hpb' (by simpa using hp)
          · exact Or.inr ⟨b', hb', hpb', hq⟩

theorem hashTails_eq_true (f : List String → Bool) :
    ∀ ks : List String, hashTails f ks = true ↔ ∃ t, t <:+ ks ∧ f t = true := by
  intro ks
  induction ks with
  | nil =>
    rw [hashTails]
    constructor
    · intro h; exact ⟨[], List.suffix_refl [], h⟩
    · rintro ⟨t, ht, hf⟩
      rwa [List.suffix_nil.mp ht] at hf
  | cons k ks ih =>
    rw [hashTails, Bool.or_eq_true, ih]
    constructor
    · rintro (h | ⟨t, ht, hf⟩)
      · exact ⟨k :: ks, List.suffix_refl _, h⟩
      · exact ⟨t, ht.trans (List.suffix_cons k ks), hf⟩
    · rintro ⟨t, ht, hf⟩
      rcases List.suffix_cons_iff.mp ht with rfl | ht
      · exact Or.inl hf
      · exact Or.inr ⟨t, ht, hf⟩

theorem topicMatchWords_hash (ps ks : List String) :
    topicMatchWords ("#" :: ps) ks = hashTails (fun t => topicMatchWords ps t) ks := by
  rw [topicMatchWords.eq_def]
  simp

theorem topicMatchWords_cons_ne {p : String} (hp : p ≠ "#") (ps ks : List String) :
    topicMatchWords (p :: ps) ks =
      match ks with
      | [] => false
      | k :: ks' => (p = "*" || p = k) && topicMatchWords ps ks' := by
  rw [topicMatchWords.eq_def]
  simp [hp]

theorem topicMatches_hash_lift (ps : List String) :
    ∀ (pre t : List String), TopicMatches ps t → TopicMatches ("#" :: ps) (pre ++ t) := by
  intro pre
  induction pre with
  | nil => intro t h; exact TopicMatches.hashSkip h
  | cons a pre ih => intro t h; exact TopicMatches.hashTake (ih t h)

theorem topicMatchWords_sound :
    ∀ (ps ks : List String), topicMatchWords ps ks = true → TopicMatches ps ks := by
  intro ps
  induction ps with
  | nil =>
    intro ks h
    cases ks with
    | nil => exact TopicMatches.nil
    | cons k ks => simp [topicMatchWords] at h
  | cons p ps ih =>
    intro ks h
    by_cases hp : p = "#"
    · subst hp
      rw [topicMatchWords_hash, hashTails_eq_true] at h
      obtain ⟨t, hsuf, hf⟩ := h
      obtain ⟨pre, rfl⟩ := hsuf
      exact topicMatches_hash_lift ps pre t (ih t hf)
    · rw [topicMatchWords_cons_ne hp] at h
      cases ks with
      | nil => simp at h
      | cons k ks' =>
        simp only [Bool.and_eq_true, Bool.or_eq_true, decide_eq_true_eq] at h
        exact TopicMatches.word hp h.1 (ih ks' h.2)

theorem topicMatchWords_complete :
    ∀ {ps ks : List String}, TopicMatches ps ks → topicMatchWords ps ks = true := by
  intro ps ks h
  induction h with
  | nil => rfl
  | word hp hw _ ih =>
    rw [topicMatchWords_cons_ne hp]
    simp only [Bool.and_eq_true, Bool.or_eq_true, decide_eq_true_eq]
    exact ⟨hw, ih⟩
  | hashSkip _ ih =>
    rw [topicMatchWords_hash, hashTails_eq_true]
    exact ⟨_, List.suffix_refl _, ih⟩
  | hashTake _ ih =>
    rw [topicMatchWords_hash, hashTails]
    rw [topicMatchWords_hash] at ih
    simp [ih]

theorem topicMatchWords_iff (ps ks : List String) :
    topicMatchWords ps ks = true ↔ TopicMatches ps ks :=
  ⟨topicMatchWords_sound ps ks, topicMatchWords_complete⟩

theorem topicMatchWords_hash_wildcard (l : List String) :
    topicMatchWords ["#"] l = true := by
  rw [topicMatchWords_hash, hashTails_eq_true]
  exact ⟨[], List.nil_suffix, rfl⟩

theorem nodup_collectQueues (p : Binding → Bool) :
    ∀ (bs : List Binding) (acc : List String),
      acc.Nodup → (collectQueues p bs acc).Nodup := by
  intro bs
  induction bs with
  | nil => intro acc h; simpa [collectQueues] using h
  | cons b bs ih =>
    intro acc h
    by_cases hp : p b
    · by_cases hmem : b.queueName ∈ acc
      · rw [collectQueues, if_pos hp, if_pos hmem]
        exact ih acc h
      · rw [collectQueues, if_pos hp, if_neg hmem]
        refine ih _ ?_
        rw [List.nodup_append]
        exact ⟨h, List.nodup_singleton _, by simpa [List.disjoint_singleton] using hmem⟩
    · rw [collectQueues, if_neg hp]
      exact ih acc h

theorem removeFirstEq_sublist (b : Binding) :
    ∀ (bs rest : List Binding), removeFirstEq b bs = some rest → rest.Sublist bs := by
  intro bs
  induction bs with
  | nil => intro rest h; simp [removeFirstEq] at h
  | cons x xs ih =>
    intro rest h
    rw [removeFirstEq] at h
    by_cases he : b.Equals x = true
    · rw [if_pos he] at h
      cases h
      exact (List.Sublist.refl xs).cons x
    · rw [if_neg he] at h
      cases hrec : removeFirstEq b xs with
      | none => rw [hrec] at h; cases h
      | some rest' =>
        rw [hrec] at h
        cases h
        exact (ih rest' hrec).cons₂ x

theorem addBinding_mem {ex : Exchange} {m : QueueBind} (cid : Int) (fd : Bool)
    (h : NewBinding m.queue m.exchange m.routingKey m.arguments ∈ ex.bindings) :
    addBinding ex m cid fd = (ex, none) := by
  rw [addBinding]
  simp only [(any_Equals_iff_mem _ _).mpr h, if_true]

theorem addBinding_not_mem {ex : Exchange} {m : QueueBind} (cid : Int) (fd : Bool)
    (h : NewBinding m.queue m.exchange m.routingKey m.arguments ∉ ex.bindings) :
    (addBinding ex m cid fd).1.bindings =
        ex.bindings ++ [NewBinding m.queue m.exchange m.routingKey m.arguments]
    ∧ (addBinding ex m cid fd).1.deleteActive =
        (if ex.autodelete then 0 else ex.deleteActive)
    ∧ (addBinding ex m cid fd).1.autodelete = ex.autodelete := by
  have hany : ex.bindings.any
      (fun x => (NewBinding m.queue m.exchange m.routingKey m.arguments).Equals x) = false := by
    rw [← Bool.not_eq_true, any_Equals_iff_mem]
    exact h
  by_cases ha : ex.autodelete <;> simp [addBinding, hany, ha]

/-! Claim theorems. -/

/-- C1: for every direct exchange and published message, `queuesForPublish`
returns a queue name iff some binding of the exchange with that queue name has
a routing key equal to the message's routing key, and the returned queue names
contain no duplicate even when several matching bindings target the same
queue. -/
theorem direct_exchange_routing (ex : Exchange) (msg : Message)
    (hdir : ex.extype = EX_TYPE_DIRECT) :
    ∃ qs, queuesForPublish ex msg = some qs ∧ qs.Nodup ∧
      ∀ q, (q ∈ qs ↔
        ∃ b ∈ ex.bindings, b.queueName = q ∧ b.key = msg.method.routingKey) := by
  refine ⟨collectQueues (fun b => b.matchDirect msg.method) ex.bindings [], ?_, ?_, ?_⟩
  · rw [queuesForPublish, if_pos hdir]
  · exact nodup_collectQueues _ ex.bindings [] List.nodup_nil
  · intro q
    rw [mem_collectQueues]
    simp only [List.not_mem_nil, false_or, Binding.matchDirect, beq_iff_eq]
    constructor
    · rintro ⟨b, hb, hk, hq⟩
      exact ⟨b, hb, hq, hk⟩
    · rintro ⟨b, hb, hq, hk⟩
      exact ⟨b, hb, hk, hq⟩

/-- Witness for C1 at a concrete direct exchange: two distinct matching
bindings target queue `q1`, one binding targets `q2` under another key. -/
theorem direct_exchange_routing_witness :
    ∃ qs, queuesForPublish
        ⟨"ex", EX_TYPE_DIRECT, false, false, false, [], false,
          [NewBinding "q1" "ex" "rk" [], NewBinding "q1" "ex" "rk" [("x", "y")],
            NewBinding "q2" "ex" "other" []], false, 0⟩
        ⟨⟨"rk"⟩⟩ = some qs ∧ qs.Nodup ∧
      ∀ q, (q ∈ qs ↔
        ∃ b ∈ [NewBinding "q1" "ex" "rk" [], NewBinding "q1" "ex" "rk" [("x", "y")],
            NewBinding "q2" "ex" "other" []],
          b.queueName = q ∧ b.key = "rk") :=
  direct_exchange_routing _ _ rfl

/-- C2: the topic matcher agrees with the declarative word-by-word semantics
(`*` matches exactly one word, `#` zero or more), and on the spec's examples:
`a.*.c` matches `a.b.c` but not `a.b.b.c`; `a.#` matches `a`, `a.b` and
`a.b.c`; `#` matches every key including the empty key. -/
theorem topic_matching_spec :
    (∀ (b : Binding) (m : BasicPublish),
      b.matchTopic m = true ↔ TopicMatches (splitKey b.key) (splitKey m.routingKey))
    ∧ (NewBinding "q" "e" "a.*.c" []).matchTopic ⟨"a.b.c"⟩ = true
    ∧ (NewBinding "q" "e" "a.*.c" []).matchTopic ⟨"a.b.b.c"⟩ = false
    ∧ (NewBinding "q" "e" "a.#" []).matchTopic ⟨"a"⟩ = true
    ∧ (NewBinding "q" "e" "a.#" []).matchTopic ⟨"a.b"⟩ = true
    ∧ (NewBinding "q" "e" "a.#" []).matchTopic ⟨"a.b.c"⟩ = true
    ∧ (∀ key : String, (NewBinding "q" "e" "#" []).matchTopic ⟨key⟩ = true) := by
  refine ⟨?_, by decide, by decide, by decide, by decide, by decide, ?_⟩
  · intro b m
    exact topicMatchWords_iff _ _
  · intro key
    exact topicMatchWords_hash_wildcard (splitKey key)

/-- C3: starting from duplicate-free bindings, every mutation keeps them
duplicate-free; adding a binding equal to a stored one is a successful no-op,
so two identical `addBinding` calls store the binding exactly once. -/
theorem bindings_nodup_invariant (ex : Exchange) (m : QueueBind) (cid : Int)
    (fd : Bool) (qu : Queue) (b : Binding) (qn : String)
    (hnd : ex.bindings.Nodup) :
    (addBinding ex m cid fd).1.bindings.Nodup
    ∧ (removeBinding ex qu b).1.bindings.Nodup
    ∧ (removeBindingsForQueue ex qn).1.bindings.Nodup
    ∧ addBinding (addBinding ex m cid fd).1 m cid fd = ((addBinding ex m cid fd).1, none)
    ∧ (addBinding (addBinding ex m cid fd).1 m cid fd).1.bindings.count
        (NewBinding m.queue m.exchange m.routingKey m.arguments) = 1 := by
  set nb := NewBinding m.queue m.exchange m.routingKey m.arguments with hnb
  have hadd1 : (addBinding ex m cid fd).1.bindings.Nodup := by
    by_cases hmem : nb ∈ ex.bindings
    · rw [addBinding_mem cid fd hmem]
      exact hnd
    · rw [(addBinding_not_mem cid fd hmem).1, List.nodup_append]
      exact ⟨hnd, List.nodup_singleton _, by simpa [List.disjoint_singleton] using hmem⟩
  have hmem1 : nb ∈ (addBinding ex m cid fd).1.bindings := by
    by_cases hmem : nb ∈ ex.bindings
    · rw [addBinding_mem cid fd hmem]
      exact hmem
    · rw [(addBinding_not_mem cid fd hmem).1]
      simp
  have hadd2 := addBinding_mem cid fd hmem1
  refine ⟨hadd1, ?_, ?_, hadd2, ?_⟩
  · cases hre : removeFirstEq b ex.bindings with
    | none => simpa [removeBinding, hre] using hnd
    | some rest =>
      simp only [removeBinding, hre]
      exact (removeFirstEq_sublist b ex.bindings rest hre).nodup hnd
  · exact hnd.filter _
  · rw [hadd2]
    by_cases hmem : nb ∈ ex.bindings
    · rw [addBinding_mem cid fd hmem]
      exact List.count_eq_one_of_mem hnd hmem
    · rw [(addBinding_not_mem cid fd hmem).1, List.count_append]
      rw [List.count_eq_zero.mpr hmem]
      simp

/-- Witness for C3 at a concrete exchange whose single stored binding differs
from the added one. -/
theorem bindings_nodup_invariant_witness :
    (addBinding
        ⟨"ex", EX_TYPE_DIRECT, false, false, false, [], false,
          [NewBinding "q0" "ex" "k0" []], false, 0⟩
        ⟨"q1", "ex", "k1", []⟩ 7 false).1.bindings.Nodup
    ∧ (removeBinding
        ⟨"ex", EX_TYPE_DIRECT, false, false, false, [], false,
          [NewBinding "q0" "ex" "k0" []], false, 0⟩
        ⟨"q0"⟩ (NewBinding "q0" "ex" "k0" [])).1.bindings.Nodup
    ∧ (removeBindingsForQueue
        ⟨"ex", EX_TYPE_DIRECT, false, false, false, [], false,
          [NewBinding "q0" "ex" "k0" []], false, 0⟩ "q0").1.bindings.Nodup
    ∧ addBinding
        (addBinding
          ⟨"ex", EX_TYPE_DIRECT, false, false, false, [], false,
            [NewBinding "q0" "ex" "k0" []], false, 0⟩
          ⟨"q1", "ex", "k1", []⟩ 7 false).1 ⟨"q1", "ex", "k1", []⟩ 7 false =
        ((addBinding
          ⟨"ex", EX_TYPE_DIRECT, false, false, false, [], false,
            [NewBinding "q0" "ex" "k0" []], false, 0⟩
          ⟨"q1", "ex", "k1", []⟩ 7 false).1, none)
    ∧ (addBinding
        (addBinding
          ⟨"ex", EX_TYPE_DIRECT, false, false, false, [], false,
            [NewBinding "q0" "ex" "k0" []], false, 0⟩
          ⟨"q1", "ex", "k1", []⟩ 7 false).1 ⟨"q1", "ex", "k1", []⟩ 7 false).1.bindings.count
        (NewBinding "q1" "ex" "k1" []) = 1 :=
  bindings_nodup_invariant
    ⟨"ex", EX_TYPE_DIRECT, false, false, false, [], false,
      [NewBinding "q0" "ex" "k0" []], false, 0⟩
    ⟨"q1", "ex", "k1", []⟩ 7 false ⟨"q0"⟩ (NewBinding "q0" "ex" "k0" []) "q0"
    (by decide)

/-- C4: `equivalentExchanges` is true iff the two exchanges agree on name,
type, durable flag, internal flag and argument table; the auto-delete flag is
ignored, so changing only auto-delete keeps an exchange equivalent to
itself. -/
theorem equivalentExchanges_spec (ex1 ex2 : Exchange) :
    (equivalentExchanges ex1 ex2 = true ↔
      (ex1.name = ex2.name ∧ ex1.extype = ex2.extype ∧ ex1.durable = ex2.durable ∧
        ex1.internal = ex2.internal ∧ EquivalentTables ex1.arguments ex2.arguments = true))
    ∧ ∀ ad : Bool, equivalentExchanges ex1 { ex1 with autodelete := ad } = true := by
  constructor
  · rw [equivalentExchanges]
    by_cases h1 : ex1.name = ex2.name <;>
      by_cases h2 : ex1.extype = ex2.extype <;>
        by_cases h3 : ex1.durable = ex2.durable <;>
          by_cases h4 : ex1.internal = ex2.internal <;>
            by_cases h5 : ex1.arguments = ex2.arguments <;>
              simp [h1, h2, h3, h4, h5, bne_iff_ne, EquivalentTables]
  · intro ad
    rw [equivalentExchanges]
    simp [EquivalentTables]

/-- C5 counterexample: a heartbeat frame (type 8) on nonzero channel 5,
arriving while the connection is not yet open, is consumed by the early
heartbeat return of `handleFrame`: the connection is not hard-closed and no
channel is created, contradicting the claim for frame type 8. -/
theorem heartbeat_frame_pre_open_counterexample :
    (⟨[0], ConnectStatus.initial, 0, 10⟩ : AMQPConnection).connectStatus.«open» = false
    ∧ (5 : Nat) ≠ 0
    ∧ (handleFrame ⟨[0], ConnectStatus.initial, 0, 10⟩ ⟨8, 5, []⟩ 0).2 ≠
        FrameAction.hardClosed
    ∧ (handleFrame ⟨[0], ConnectStatus.initial, 0, 10⟩ ⟨8, 5, []⟩ 0).1.channels = [0] := by
  decide

/-- C5 (amended): for every inbound frame other than a heartbeat (frame type
8), a nonzero channel id before the connection reaches the Open state makes
`handleFrame` hard-close the connection without creating or dispatching to
any channel. -/
theorem pre_open_nonzero_channel_hard_close (conn : AMQPConnection)
    (frame : WireFrame) (now : Int)
    (hft : frame.frameType ≠ 8)
    (hopen : conn.connectStatus.«open» = false)
    (hch : frame.channel ≠ 0) :
    (handleFrame conn frame now).2 = FrameAction.hardClosed
    ∧ (handleFrame conn frame now).1.channels = conn.channels := by
  simp [handleFrame, hft, hopen, hch]

/-- Witness for the amended C5: a method frame (type 1) on channel 5 before
Open hard-closes and leaves the channel table untouched. -/
theorem pre_open_nonzero_channel_hard_close_witness :
    (handleFrame ⟨[0], ConnectStatus.initial, 0, 10⟩ ⟨1, 5, []⟩ 0).2 =
        FrameAction.hardClosed
    ∧ (handleFrame ⟨[0], ConnectStatus.initial, 0, 10⟩ ⟨1, 5, []⟩ 0).1.channels = [0] :=
  pre_open_nonzero_channel_hard_close ⟨[0], ConnectStatus.initial, 0, 10⟩ ⟨1, 5, []⟩ 0
    (by decide) (by decide) (by decide)

/-- C6: on an 8-byte protocol header differing from the fixed signature,
`openConnection` writes the supported signature back and hard-closes without
creating channel 0 or starting the handshake; on the matching signature it
creates channel 0 and starts frame handling. -/
theorem protocol_header_check (conn : AMQPConnection) (buf : List Nat)
    (hlen : buf.length = 8) :
    (buf ≠ supportedSignature →
      openConnection conn (some buf) = (conn, ⟨true, true, false, false⟩))
    ∧ (buf = supportedSignature →
      openConnection conn (some buf) =
        ({ conn with channels := conn.channels ++ [0] }, ⟨false, false, true, true⟩)) := by
  constructor <;> intro h <;> simp [openConnection, h]

/-- Witness for C6 at a concrete all-zero header and at the real signature. -/
theorem protocol_header_check_witness :
    openConnection ⟨[], ConnectStatus.initial, 0, 10⟩ (some [0, 0, 0, 0, 0, 0, 0, 0]) =
        (⟨[], ConnectStatus.initial, 0, 10⟩, ⟨true, true, false, false⟩)
    ∧ openConnection ⟨[], ConnectStatus.initial, 0, 10⟩ (some [65, 77, 81, 80, 0, 0, 9, 1]) =
        (⟨[0], ConnectStatus.initial, 0, 10⟩, ⟨false, false, true, true⟩) :=
  ⟨(protocol_header_check ⟨[], ConnectStatus.initial, 0, 10⟩
      [0, 0, 0, 0, 0, 0, 0, 0] (by decide)).1 (by decide),
    (protocol_header_check ⟨[], ConnectStatus.initial, 0, 10⟩
      [65, 77, 81, 80, 0, 0, 9, 1] (by decide)).2 (by decide)⟩

/-- C7: when removing a binding empties an auto-delete exchange (starting the
quiescence timeout, which records `now` as the marker), an `addBinding` that
appends a new binding before the window elapses resets the marker to the
epoch, so the timeout's unchanged-marker check fails and no deletion signal is
sent. -/
theorem autodelete_cancelled_by_addBinding (ex : Exchange) (qu : Queue)
    (b : Binding) (now : Int) (m : QueueBind) (cid : Int) (fd : Bool)
    (hnow : now ≠ 0)
    (hstart : (removeBinding ex qu b).2.1 = true) :
    autodeleteTimeoutFire
      (addBinding (autodeleteTimeoutStart (removeBinding ex qu b).1 now) m cid fd).1
      now = false := by
  cases hre : removeFirstEq b ex.bindings with
  | none => simp [removeBinding, hre] at hstart
  | some rest =>
    simp only [removeBinding, hre, Bool.and_eq_true, List.isEmpty_iff] at hstart ⊢
    obtain ⟨ha, hrest⟩ := hstart
    subst hrest
    simp [addBinding, autodeleteTimeoutStart, autodeleteTimeoutFire, ha, beq_iff_eq]
    omega

/-- Witness for C7: a one-binding auto-delete exchange, emptied and re-bound
before the 5-second check at marker time 5. -/
theorem autodelete_cancelled_by_addBinding_witness :
    autodeleteTimeoutFire
      (addBinding
        (autodeleteTimeoutStart
          (removeBinding
            ⟨"ex", EX_TYPE_DIRECT, false, true, false, [], false,
              [NewBinding "q0" "ex" "k0" []], false, 0⟩
            ⟨"q0"⟩ (NewBinding "q0" "ex" "k0" [])).1 5)
        ⟨"q1", "ex", "k1", []⟩ 7 false).1
      5 = false :=
  autodelete_cancelled_by_addBinding
    ⟨"ex", EX_TYPE_DIRECT, false, true, false, [], false,
      [NewBinding "q0" "ex" "k0" []], false, 0⟩
    ⟨"q0"⟩ (NewBinding "q0" "ex" "k0" []) 5 ⟨"q1", "ex", "k1", []⟩ 7 false
    (by decide) (by decide)

/-- C8: the binding mutation operations always return success: `addBinding`
and `removeBinding` yield a `none` error on every input, including
`removeBinding` of an absent binding. -/
theorem binding_mutations_always_succeed (ex : Exchange) (m : QueueBind)
    (cid : Int) (fd : Bool) (qu : Queue) (b : Binding) :
    (addBinding ex m cid fd).2 = none ∧ (removeBinding ex qu b).2.2 = none := by
  constructor
  · rw [addBinding]
    split <;> rfl
  · cases hre : removeFirstEq b ex.bindings <;> simp [removeBinding, hre]

/-- C9: `removeBindingsForQueue` never spawns the auto-delete timeout and
never modifies the `deleteActive` marker, even when it empties the bindings;
the timeout is spawned exactly by a `removeBinding` call that removes a
binding from an auto-delete exchange and leaves the collection empty. -/
theorem removeBindingsForQueue_no_autodelete (ex : Exchange) (qn : String)
    (qu : Queue) (b : Binding) :
    ((removeBindingsForQueue ex qn).2 = false
    ∧ (removeBindingsForQueue ex qn).1.deleteActive = ex.deleteActive)
    ∧ ((removeBinding ex qu b).2.1 = true ↔
        (ex.autodelete = true ∧ removeFirstEq b ex.bindings ≠ none
          ∧ (removeBinding ex qu b).1.bindings = [])) := by
  refine ⟨⟨rfl, rfl⟩, ?_⟩
  cases hre : removeFirstEq b ex.bindings with
  | none => simp [removeBinding, hre]
  | some rest => simp [removeBinding, hre, List.isEmpty_iff]

/-- C10: `addBinding` with a binding structurally equal to a stored one
returns before the auto-delete branch, leaving the whole exchange (and in
particular `deleteActive`) unchanged; whenever the marker does change, the
call actually appended a new binding. -/
theorem addBinding_duplicate_preserves_marker (ex : Exchange) (m : QueueBind)
    (cid : Int) (fd : Bool) :
    (NewBinding m.queue m.exchange m.routingKey m.arguments ∈ ex.bindings →
      (addBinding ex m cid fd).1 = ex)
    ∧ ((addBinding ex m cid fd).1.deleteActive ≠ ex.deleteActive →
      (addBinding ex m cid fd).1.bindings =
        ex.bindings ++ [NewBinding m.queue m.exchange m.routingKey m.arguments]) := by
  constructor
  · intro h
    rw [addBinding_mem cid fd h]
  · intro h
    by_cases hmem : NewBinding m.queue m.exchange m.routingKey m.arguments ∈ ex.bindings
    · rw [addBinding_mem cid fd hmem] at h
      exact absurd rfl h
    · exact (addBinding_not_mem cid fd hmem).1

/-- Witness for C10: adding an already-stored binding leaves a concrete
auto-delete exchange untouched, and a marker-changing call on an exchange
without the binding is an actual append. -/
theorem addBinding_duplicate_preserves_marker_witness :
    (addBinding
        ⟨"ex", EX_TYPE_DIRECT, false, true, false, [], false,
          [NewBinding "q0" "ex" "k0" []], false, 9⟩
        ⟨"q0", "ex", "k0", []⟩ 7 false).1 =
      ⟨"ex", EX_TYPE_DIRECT, false, true, false, [], false,
        [NewBinding "q0" "ex" "k0" []], false, 9⟩
    ∧ (addBinding
        ⟨"ex", EX_TYPE_DIRECT, false, true, false, [], false, [], false, 9⟩
        ⟨"q1", "ex", "k1", []⟩ 7 false).1.bindings =
      [] ++ [NewBinding "q1" "ex" "k1" []] :=
  ⟨(addBinding_duplicate_preserves_marker
      ⟨"ex", EX_TYPE_DIRECT, false, true, false, [], false,
        [NewBinding "q0" "ex" "k0" []], false, 9⟩
      ⟨"q0", "ex", "k0", []⟩ 7 false).1 (by decide),
    (addBinding_duplicate_preserves_marker
      ⟨"ex", EX_TYPE_DIRECT, false, true, false, [], false, [], false, 9⟩
      ⟨"q1", "ex", "k1", []⟩ 7 false).2 (by decide)⟩

end Dispatchd
